import Mathlib

/-!
Verification of the pipotter wand-tracking pipeline.

Shallow embedding of the pure/arithmetic fragments of the repository:
motion filtering and trace-validity checks of the wand detectors
(`src/wand/detector/detector_circles.py`, `detector_blobs.py`), the
bounded trace buffer, staleness eviction, sigil extraction
(`_crop_save_trace`), the spell dispatcher (`core/controller.py`),
`SpellSigil.get_box` (`wand/spellscontainer.py`), the file video looper
(`media/video_source/looper.py`) and `pad_to_square` (`core/utils.py`).
Machine floats are embedded as exact rationals; Python exceptions as
`Except`.
-/

/-! ## Motion filter (detector_circles.py lines 143-170, detector_blobs.py lines 139-161) -/

/-- Squared euclidean distance between two points, as in
`WandDetector._distance` (which returns `sqrt` of this quantity). -/
def distSq (p q : ℚ × ℚ) : ℚ :=
  (p.1 - q.1) ^ 2 + (p.2 - q.2) ^ 2

/-- The speed gate of `detect_wand` when a previous trace point exists
(detector_circles.py lines 146-152, detector_blobs.py lines 145-148):
the candidate is appended only when
`speed = sqrt(distSq) / dt < max_trace_speed`.  With `0 < dt` and
`0 < max_trace_speed` this comparison is equivalent to the squared form
`distSq < (max_trace_speed * dt)^2`, which is what we embed so the
gate stays executable over `ℚ`; the equivalence with the `Real.sqrt`
form is proved in `motion_accept_iff_sqrt` below. -/
def motion_accept (candidate previous : ℚ × ℚ) (dt maxSpeed : ℚ) : Bool :=
  decide (distSq candidate previous < (maxSpeed * dt) ^ 2)

theorem motion_accept_iff_sqrt (c p : ℚ × ℚ) (dt maxSpeed : ℚ)
    (hdt : 0 < dt) (hms : 0 < maxSpeed) :
    motion_accept c p dt maxSpeed = true ↔
      Real.sqrt ((distSq c p : ℚ) : ℝ) / dt < maxSpeed := by
  unfold motion_accept
  rw [decide_eq_true_iff]
  have hdt' : (0 : ℝ) < (dt : ℚ) := by exact_mod_cast hdt
  have hms' : (0 : ℝ) < ((maxSpeed : ℚ) : ℝ) * ((dt : ℚ) : ℝ) :=
    mul_pos (by exact_mod_cast hms) hdt'
  rw [div_lt_iff₀ hdt']
  rw [Real.sqrt_lt' hms']
  constructor
  · intro h
    exact_mod_cast h
  · intro h
    exact_mod_cast h

/-! ## Trace validity (detector_circles.py lines 274-310) -/

/-- `WandDetector.POINTS_BUFFER_SIZE` (detector_circles.py line 12). -/
def POINTS_BUFFER_SIZE : ℕ := 20

/-- `WandDetector.check_trace_validity` (detector_circles.py lines 274-310)
as a function of the state it reads: the number of keypoints detected in
the current frame (`self.blobKeypoints`), the trace buffer length
(`len(self.tracePoints)`), the elapsed time since the last accepted
keypoint (`time.time() - self.last_keypoint_int_time`) and the `max_time`
argument (default 2 seconds).  The function returns `True` only when no
keypoints were detected this frame and either the buffer holds at least
`POINTS_BUFFER_SIZE - 5` points, or `elapsed < max_time` and the buffer
holds more than `POINTS_BUFFER_SIZE // 3` points (Python floor division);
in every other case it returns `False` (resetting the trace as a side
effect on the failing branch). -/
def check_trace_validity (numKeypoints traceLen : ℕ) (elapsed maxTime : ℚ) : Bool :=
  if numKeypoints = 0 then
    if traceLen ≥ POINTS_BUFFER_SIZE - 5 then true
    else if elapsed < maxTime ∧ traceLen > POINTS_BUFFER_SIZE / 3 then true
    else false
  else false

/-! ## Trace buffers (detector_blobs.py lines 50-52 and 215-227,
detector_circles.py lines 152-154) -/

/-- A trace point of detector_blobs: the keypoint coordinates paired with
the detection timestamp, as stored in `self.wand_tip_movement`. -/
abbrev TracePoint : Type := (ℚ × ℚ) × ℚ

/-- Timestamp of a trace point. -/
abbrev TracePoint.time (p : TracePoint) : ℚ := p.2

/-- Append to a `collections.deque` with `maxlen = cap`
(detector_blobs.py line 50: `deque(maxlen=trace_buffer_size)`); when the
deque is full the oldest (front) element is discarded. -/
def dequeAppend (cap : ℕ) (xs : List α) (x : α) : List α :=
  let ys := xs ++ [x]
  ys.drop (ys.length - cap)

/-- Append to the circles detector trace buffer (detector_circles.py
line 154: `self.tracePoints.append(pt2)`): a plain Python list append,
with no capacity bound anywhere in the class. -/
def tracePointsAppend (xs : List (ℚ × ℚ)) (x : ℚ × ℚ) : List (ℚ × ℚ) :=
  xs ++ [x]

theorem dequeAppend_length (cap : ℕ) (xs : List α) (x : α) :
    (dequeAppend cap xs x).length = min (xs.length + 1) cap := by
  unfold dequeAppend
  simp [List.length_drop]
  omega

/-! ## Staleness eviction (detector_blobs.py lines 229-240) -/

/-- `WandDetector._remove_old_points`: pop points from the front of the
buffer while the front point is strictly older than `max_trace_duration`
relative to `current_time`; stop at the first young-enough point. -/
def remove_old_points (currentTime maxDur : ℚ) : List TracePoint → List TracePoint
  | [] => []
  | p :: rest =>
    if currentTime - p.time > maxDur then remove_old_points currentTime maxDur rest
    else p :: rest

/-! ## Image model

Grayscale and 3-channel rasters, with the small slice of the numpy /
OpenCV contract the repository relies on: slicing, `cv2.resize` (output
dimensions equal `dsize`, error on an empty source or target; pixel
content modelled by index sampling, which like any interpolation maps an
all-zero image to an all-zero image), numpy subarray assignment and
`cv2.copyMakeBorder`. -/

/-- A single-channel raster: `rows × cols`, pixel lookup by (row, col). -/
structure Img where
  rows : ℕ
  cols : ℕ
  px : ℕ → ℕ → ℕ

/-- A 3-channel raster. -/
structure Img3 where
  rows : ℕ
  cols : ℕ
  px : ℕ → ℕ → ℕ × ℕ × ℕ

/-- Every in-bounds pixel is background (0). -/
def Img.allZero (im : Img) : Prop :=
  ∀ i j, i < im.rows → j < im.cols → im.px i j = 0

/-- Every in-bounds pixel is background (0,0,0). -/
def Img3.allZero (im : Img3) : Prop :=
  ∀ i j, i < im.rows → j < im.cols → im.px i j = (0, 0, 0)

/-- Numpy slice `im[y0:y1, x0:x1]` (used with precomputed in-bounds
indices `y0 ≤ y1 ≤ rows`, `x0 ≤ x1 ≤ cols`). -/
def npSlice (im : Img) (y0 y1 x0 x1 : ℕ) : Img :=
  ⟨y1 - y0, x1 - x0, fun i j => im.px (y0 + i) (x0 + j)⟩

/-- `cv2.resize(im, (newW, newH))`: raises `cv2.error` when the source
or destination is empty, otherwise yields a `newH × newW` image sampled
from the source. -/
def cvResize (im : Img) (newW newH : ℕ) : Except String Img :=
  if newW = 0 ∨ newH = 0 ∨ im.rows = 0 ∨ im.cols = 0 then
    Except.error "cv2.error"
  else
    Except.ok ⟨newH, newW, fun i j => im.px (i * im.rows / newH) (j * im.cols / newW)⟩

/-- `cv2.resize` on a 3-channel image. -/
def cvResize3 (im : Img3) (newW newH : ℕ) : Except String Img3 :=
  if newW = 0 ∨ newH = 0 ∨ im.rows = 0 ∨ im.cols = 0 then
    Except.error "cv2.error"
  else
    Except.ok ⟨newH, newW, fun i j => im.px (i * im.rows / newH) (j * im.cols / newW)⟩

/-- Numpy assignment `canvas[py:py+sub.rows, px0:px0+sub.cols] = sub`. -/
def canvasPaste (canvas sub : Img) (py px0 : ℕ) : Img :=
  ⟨canvas.rows, canvas.cols, fun i j =>
    if py ≤ i ∧ i < py + sub.rows ∧ px0 ≤ j ∧ j < px0 + sub.cols then
      sub.px (i - py) (j - px0)
    else canvas.px i j⟩

/-- `cv2.cvtColor(im, cv2.COLOR_GRAY2RGB)`: replicate the channel. -/
def gray2rgb (im : Img) : Img3 :=
  ⟨im.rows, im.cols, fun i j => (im.px i j, im.px i j, im.px i j)⟩

/-- `cv2.copyMakeBorder(im, top, bottom, left, right, BORDER_CONSTANT, color)`. -/
def copyMakeBorder (im : Img3) (top bottom left right : ℕ) (color : ℕ × ℕ × ℕ) : Img3 :=
  ⟨im.rows + top + bottom, im.cols + left + right, fun i j =>
    if top ≤ i ∧ i < top + im.rows ∧ left ≤ j ∧ j < left + im.cols then
      im.px (i - top) (j - left)
    else color⟩

/-! ## Sigil extraction (detector_circles.py lines 312-389) -/

/-- `WandDetector._update_trace_boundaries` (detector_circles.py lines
324-339): fold the component-wise min into `_traceUpperCorner`
(initialised to `(frame_width, frame_height)`) and the component-wise
max into `_traceLowerCorner` (initialised to `(0, 0)`). -/
def update_trace_boundaries (frameW frameH : ℕ) (pts : List (ℚ × ℚ)) :
    (ℚ × ℚ) × (ℚ × ℚ) :=
  pts.foldl
    (fun acc p =>
      ((min acc.1.1 p.1, min acc.1.2 p.2), (max acc.2.1 p.1, max acc.2.2 p.2)))
    (((frameW : ℚ), (frameH : ℚ)), ((0 : ℚ), (0 : ℚ)))

/-- `WandDetector.CROPPED_IMG_MARGIN` (detector_circles.py line 15). -/
def CROPPED_IMG_MARGIN : ℚ := 10

/-- `int(max(corner - CROPPED_IMG_MARGIN, 0))` (detector_circles.py
lines 350-351): the clamped value is nonnegative, so Python `int()`
truncation is floor. -/
def py_int_clamp_low (v : ℚ) : ℕ :=
  (max (v - CROPPED_IMG_MARGIN) 0).floor.toNat

/-- `int(min(corner + CROPPED_IMG_MARGIN, frame_bound))` (detector_circles.py
lines 352-357). -/
def py_int_clamp_high (bound : ℕ) (v : ℚ) : ℕ :=
  (min (v + CROPPED_IMG_MARGIN) ((bound : ℕ) : ℚ)).floor.toNat

/-- The slice `self.wand_move_tracing_frame[upper_y:lower_y, upper_x:lower_x]`
of `_crop_save_trace` (detector_circles.py line 360). -/
def cropped_region (frameW frameH : ℕ) (mask : Img) (upper lower : ℚ × ℚ) : Img :=
  npSlice mask (py_int_clamp_low upper.2) (py_int_clamp_high frameH lower.2)
    (py_int_clamp_low upper.1) (py_int_clamp_high frameW lower.1)

/-- `scale = min(224 / trace_width, 224 / trace_height)` and
`new_width = int(trace_width * scale)`, `new_height = int(trace_height *
scale)` (detector_circles.py lines 365-370), returned as
`(new_width, new_height)`. -/
def scaled_dims (w h : ℕ) : ℕ × ℕ :=
  let scale : ℚ := min ((224 : ℚ) / w) ((224 : ℚ) / h)
  (((w : ℚ) * scale).floor.toNat, ((h : ℚ) * scale).floor.toNat)

/-- Lines 377-387 of detector_circles.py: place the resized trace at
`final_trace_cell[pad_y : pad_y + new_height, pad_x : pad_x + new_width]`
on the blank black 224×224 canvas. -/
def paste_onto_canvas (resized : Img) (newW newH : ℕ) : Img :=
  canvasPaste ⟨224, 224, fun _ _ => 0⟩ resized ((224 - newH) / 2) ((224 - newW) / 2)

/-- `WandDetector._crop_save_trace` (detector_circles.py lines 341-389):
clamp the margin-expanded bounding box to the frame, slice the tracing
frame, compute the aspect-preserving scale `min(224/w, 224/h)` (a Python
`ZeroDivisionError` when the crop is empty), resize with `cv2.resize`,
and paste centred onto a black 224×224 canvas.  Float arithmetic is
embedded exactly over `ℚ`. -/
def crop_save_trace (frameW frameH : ℕ) (mask : Img) (upper lower : ℚ × ℚ) :
    Except String Img :=
  if (cropped_region frameW frameH mask upper lower).cols = 0 ∨
      (cropped_region frameW frameH mask upper lower).rows = 0 then
    Except.error "ZeroDivisionError"
  else
    (cvResize (cropped_region frameW frameH mask upper lower)
        (scaled_dims (cropped_region frameW frameH mask upper lower).cols
          (cropped_region frameW frameH mask upper lower).rows).1
        (scaled_dims (cropped_region frameW frameH mask upper lower).cols
          (cropped_region frameW frameH mask upper lower).rows).2).map
      (fun resized =>
        paste_onto_canvas resized
          (scaled_dims (cropped_region frameW frameH mask upper lower).cols
            (cropped_region frameW frameH mask upper lower).rows).1
          (scaled_dims (cropped_region frameW frameH mask upper lower).cols
            (cropped_region frameW frameH mask upper lower).rows).2)

/-- `WandDetector.get_a_spell_maybe` (detector_circles.py lines 312-322):
a black 224×224 image when the trace is not valid, otherwise the cropped
trace. -/
def get_a_spell_maybe (valid : Bool) (frameW frameH : ℕ) (mask : Img)
    (upper lower : ℚ × ℚ) : Except String Img :=
  if valid then crop_save_trace frameW frameH mask upper lower
  else Except.ok ⟨224, 224, fun _ _ => 0⟩

/-! ## Spell dispatcher (core/controller.py lines 136-147) -/

/-- Step 4 of `PiPotterController._process_sigil`: the dict comprehension
`{k: v for k, v in predictions.items() if v >= self.spell_threshold}`.
A Python dict is embedded as an insertion-ordered association list. -/
def filter_predictions (threshold : ℚ) (preds : List (String × ℚ)) :
    List (String × ℚ) :=
  preds.filter (fun kv => threshold ≤ kv.2)

/-- Python `max(possible, key=possible.get)` over a non-empty dict:
iterate in insertion order keeping the current best, replacing it only on
a strictly larger value, so the first maximum encountered wins. -/
def max_first : List (String × ℚ) → Option (String × ℚ)
  | [] => none
  | kv :: rest =>
    some (rest.foldl (fun best x => if best.2 < x.2 then x else best) kv)

/-- The label computed by `PiPotterController._process_sigil` (lines
136-142): filter by the threshold, return the no-spell sentinel
(`settings["PIPOTTER_NO_SPELL_LABEL"]`) when nothing survives, otherwise
the first label attaining the maximum probability. -/
def process_sigil_label (preds : List (String × ℚ)) (threshold : ℚ)
    (sentinel : String) : String :=
  match max_first (filter_predictions threshold preds) with
  | none => sentinel
  | some kv => kv.1

/-! ## SpellSigil.get_box (wand/spellscontainer.py lines 35-56) -/

/-- One history entry of `SpellSigil`: a line `[left, top, right, bottom]`. -/
structure BoxLine where
  left : ℤ
  top : ℤ
  right : ℤ
  bottom : ℤ
deriving DecidableEq

/-- `SpellSigil.get_box` with the sigil's `margin`: `ValueError` (here
`none`) on an empty history; otherwise take the column-wise minimum of
(left, top) and maximum of (right, bottom) over the history matrix, swap
left/right (top/bottom) if inverted, subtract the margin from top only
when the result stays nonnegative, subtract the margin from left only
when the already-updated top minus the margin is nonnegative (the code
tests `top`, not `left`, on line 53), and always add the margin to right
and bottom. -/
def get_box (margin : ℤ) : List BoxLine → Option (ℤ × ℤ × ℤ × ℤ)
  | [] => none
  | h :: t =>
    let left0 := t.foldl (fun a r => min a r.left) h.left
    let top0 := t.foldl (fun a r => min a r.top) h.top
    let right0 := t.foldl (fun a r => max a r.right) h.right
    let bottom0 := t.foldl (fun a r => max a r.bottom) h.bottom
    let left1 := if left0 > right0 then right0 else left0
    let right1 := if left0 > right0 then left0 else right0
    let top1 := if top0 > bottom0 then bottom0 else top0
    let bottom1 := if top0 > bottom0 then top0 else bottom0
    let top2 := if top1 - margin ≥ 0 then top1 - margin else top1
    let left2 := if top2 - margin ≥ 0 then left1 - margin else left1
    some (left2, top2, right1 + margin, bottom1 + margin)

/-! ## Speed computation at dt = 0 (detector_circles.py lines 144-150,
detector_blobs.py lines 144-148) -/

/-- The circles detector speed computation `speed = distance / elapsed`:
`distance` (`math.sqrt(...)`) and `elapsed` are Python floats, and Python
float division by zero raises `ZeroDivisionError`. -/
def circles_speed (distance elapsed : ℚ) : Except String ℚ :=
  if elapsed = 0 then Except.error "ZeroDivisionError"
  else Except.ok (distance / elapsed)

/-- Numpy float64 division (`distance` in detector_blobs is the
`np.linalg.norm` result): division by zero yields a non-finite value
(`inf`, or `nan` for `0/0`) with only a runtime warning.  `none` stands
for the non-finite results. -/
def np_div (distance elapsed : ℚ) : Option ℚ :=
  if elapsed = 0 then none else some (distance / elapsed)

/-- The blobs detector gate `speed < self.max_trace_speed`
(detector_blobs.py line 148) on the numpy speed: an IEEE comparison
against `inf`/`nan` is `False`, so a zero `elapsed_time` never updates
the trace (the candidate is skipped with a warning log). -/
def blobs_speed_accept (distance elapsed maxSpeed : ℚ) : Bool :=
  match np_div distance elapsed with
  | none => false
  | some s => decide (s < maxSpeed)

/-! ## File video looper (media/video_source/looper.py lines 56-80) -/

/-- The mutable state of a `VideoLooper`: the read position of the
underlying `cv2.VideoCapture` and `self.frame_counter`. -/
structure LooperState where
  pos : ℕ
  counter : ℕ
deriving DecidableEq

/-- `cv2.VideoCapture.read()` on a file with `total` frames: success with
the frame at the current position and an advanced position while frames
remain, `(False, None)` at the end. -/
def capture_read (total pos : ℕ) : (Bool × Option ℕ) × ℕ :=
  if pos < total then ((true, some pos), pos + 1) else ((false, none), pos)

/-- `VideoLooper._read` (lines 56-61): increment `frame_counter`, then
read from the capture. -/
def looper_underread (total : ℕ) (s : LooperState) :
    (Bool × Option ℕ) × LooperState :=
  let r := capture_read total s.pos
  (r.1, ⟨r.2, s.counter + 1⟩)

/-- `VideoLooper.read` (lines 63-80) with the constructor-default
`flip=[]` (so the `imutils` resize loop is never entered): `_read`; if
`frame_counter >= total_frames`, release and reopen the file (position
0, counter 0) and `_read` again, returning that result instead. -/
def looper_read (total : ℕ) (s : LooperState) :
    (Bool × Option ℕ) × LooperState :=
  let r1 := looper_underread total s
  if r1.2.counter ≥ total then looper_underread total ⟨0, 0⟩
  else r1

/-- The looper state after `k` calls to `read()` starting from the state
established by the constructor (position 0, counter 0). -/
def looper_state (total : ℕ) : ℕ → LooperState
  | 0 => ⟨0, 0⟩
  | k + 1 => (looper_read total (looper_state total k)).2

/-! ## pad_to_square (core/utils.py lines 11-44) -/

/-- The input to `pad_to_square`: a 2-D grayscale array or a 3-channel
array (`uint8` conversion is a no-op in this model). -/
def PadInput : Type := Img ⊕ Img3

/-- The channel normalisation at the top of `pad_to_square`
(core/utils.py lines 21-23): a 2-D grayscale input is converted with
`cv2.cvtColor(im, cv2.COLOR_GRAY2RGB)`, a 3-channel input is untouched. -/
def pad_input_rgb (input : PadInput) : Img3 :=
  match input with
  | Sum.inl g => gray2rgb g
  | Sum.inr c => c

/-- The resize target of `pad_to_square` (core/utils.py lines 27-29):
`ratio = 224 / max(h, w)`; `new_size = (int(h*ratio), int(w*ratio))`
(`int()` truncation on these nonnegative floats is floor).  Returned as
`(width, height)`, the `dsize` order passed to `cv2.resize`. -/
def pad_new_dims (im : Img3) : ℕ × ℕ :=
  let ratio : ℚ := 224 / ((max im.rows im.cols : ℕ) : ℚ)
  (((im.cols : ℚ) * ratio).floor.toNat, ((im.rows : ℚ) * ratio).floor.toNat)

/-- `pad_to_square(im, 224, [0,0,0])` (core/utils.py lines 11-44):
convert grayscale to RGB, compute `ratio = 224 / max(h, w)` and the
truncated new size, and inside the `try` resize and pad with
`cv2.copyMakeBorder` to a 224×224 canvas; a `cv2.error` (raised by
`cv2.resize` when a target dimension truncates to zero) is caught and the
pre-allocated all-black 224×224×3 `squared` canvas is returned. -/
def pad_to_square (input : PadInput) : Img3 :=
  let im : Img3 := pad_input_rgb input
  let newW : ℕ := (pad_new_dims im).1
  let newH : ℕ := (pad_new_dims im).2
  match cvResize3 im newW newH with
  | Except.error _ => ⟨224, 224, fun _ _ => (0, 0, 0)⟩
  | Except.ok resized =>
    let deltaW := 224 - newW
    let deltaH := 224 - newH
    copyMakeBorder resized (deltaH / 2) (deltaH - deltaH / 2) (deltaW / 2)
      (deltaW - deltaW / 2) (0, 0, 0)

/-! ## Helper lemmas -/

theorem foldl_dequeAppend_length_le (cap : ℕ) (ps : List α) :
    ∀ xs : List α, (ps.foldl (dequeAppend cap) xs).length ≤ max xs.length cap := by
  induction ps with
  | nil => intro xs; simp
  | cons p rest ih =>
    intro xs
    have h := ih (dequeAppend cap xs p)
    simp only [List.foldl_cons]
    have hlen : (dequeAppend cap xs p).length ≤ cap := by
      rw [dequeAppend_length]; omega
    omega

theorem foldl_tracePointsAppend_length (ps : List (ℚ × ℚ)) :
    ∀ xs : List (ℚ × ℚ),
      (ps.foldl tracePointsAppend xs).length = xs.length + ps.length := by
  induction ps with
  | nil => intro xs; simp
  | cons p rest ih =>
    intro xs
    simp only [List.foldl_cons, ih, tracePointsAppend]
    simp
    omega

/-! ## Claim C1 -/

/-- C1 (amended): with a previous trace point, the detector accepts the
candidate exactly when `speed = euclidean_distance / dt` is strictly
below `max_trace_speed` (so a candidate at speed exactly equal to the
threshold is rejected, not accepted); in particular, with previous point
(0,0), candidate (1000,1000), dt = 0.01 and `max_trace_speed = 250` the
candidate is rejected. -/
theorem C1_speed_gate :
    motion_accept (1000, 1000) (0, 0) (1 / 100) 250 = false ∧
    ∀ (c p : ℚ × ℚ) (dt maxSpeed : ℚ), 0 < dt → 0 < maxSpeed →
      (motion_accept c p dt maxSpeed = true ↔
        Real.sqrt ((distSq c p : ℚ) : ℝ) / dt < maxSpeed) := by
  constructor
  · simp only [motion_accept, distSq]
    norm_num
  · exact motion_accept_iff_sqrt

/-- C1 witness: the equivalence instantiated at candidate (3,4),
previous (0,0), dt = 1, max speed 300. -/
theorem C1_speed_gate_witness :
    motion_accept (3, 4) (0, 0) 1 300 = true ↔
      Real.sqrt ((distSq ((3 : ℚ), (4 : ℚ)) (0, 0) : ℚ) : ℝ) / (((1 : ℚ)) : ℝ) <
        (((300 : ℚ)) : ℝ) :=
  C1_speed_gate.2 (3, 4) (0, 0) 1 300 (by norm_num) (by norm_num)

/-- C1 counterexample: at previous (0,0), candidate (250,0), dt = 1 and
`max_trace_speed = 250` the speed is exactly 250, not greater than the
threshold, so the claim as stated predicts acceptance — but the code
(`speed < self.MAX_TRACE_SPEED`) rejects the candidate. -/
theorem C1_speed_gate_counterexample :
    motion_accept (250, 0) (0, 0) 1 250 = false ∧
    ¬ (250 : ℝ) < Real.sqrt ((distSq ((250 : ℚ), (0 : ℚ)) (0, 0) : ℚ) : ℝ) / 1 := by
  have hd : (distSq ((250 : ℚ), (0 : ℚ)) (0, 0) : ℚ) = 62500 := by
    norm_num [distSq]
  constructor
  · simp only [motion_accept, distSq]
    norm_num
  · rw [hd]
    have : ((62500 : ℚ) : ℝ) = (250 : ℝ) ^ 2 := by norm_num
    rw [this, Real.sqrt_sq (by norm_num : (0 : ℝ) ≤ 250)]
    norm_num

/-! ## Claim C2 -/

/-- C2 (amended): the validity check of the circles detector passes
exactly when no keypoints were detected in the current frame AND (the
buffer length is at least `POINTS_BUFFER_SIZE - 5 = 15`, OR the elapsed
time since the last accepted keypoint is below the 2-second window and
the buffer length exceeds `POINTS_BUFFER_SIZE // 3 = 6`). -/
theorem C2_trace_validity (numKeypoints traceLen : ℕ) (elapsed : ℚ) :
    check_trace_validity numKeypoints traceLen elapsed 2 = true ↔
      numKeypoints = 0 ∧
        (POINTS_BUFFER_SIZE - 5 ≤ traceLen ∨
          (elapsed < 2 ∧ POINTS_BUFFER_SIZE / 3 < traceLen)) := by
  simp only [check_trace_validity]
  split_ifs with h1 h2 h3 <;> simp_all

/-- C2 witness: 0 keypoints this frame, 15 buffered points, any elapsed
time — valid. -/
theorem C2_trace_validity_witness :
    check_trace_validity 0 15 100 2 = true :=
  (C2_trace_validity 0 15 100).mpr ⟨rfl, Or.inl (by norm_num [POINTS_BUFFER_SIZE])⟩

/-- C2 counterexample: with a full-enough buffer (15 ≥ capacity − 5) but
a keypoint detected in the current frame, the claim as stated predicts
the check passes, yet `check_trace_validity` returns `False` because it
only ever succeeds when `len(self.blobKeypoints) == 0`. -/
theorem C2_trace_validity_counterexample :
    check_trace_validity 1 15 0 2 = false ∧ POINTS_BUFFER_SIZE - 5 ≤ 15 := by
  constructor
  · rfl
  · norm_num [POINTS_BUFFER_SIZE]

/-! ## Claim C3 -/

/-- C3 (amended): the blobs detector trace buffer is a deque with
`maxlen = trace_buffer_size`; starting empty, its length never exceeds
the capacity, and appending to a full buffer evicts the oldest (front)
entry.  The circles detector, by contrast, stores its trace in a plain
Python list: after N accepted points the list holds exactly N entries,
with no eviction. -/
theorem C3_bounded_buffer :
    (∀ (cap : ℕ) (ps : List TracePoint),
        (ps.foldl (dequeAppend cap) []).length ≤ cap) ∧
    (∀ (cap : ℕ) (xs : List TracePoint) (x : TracePoint),
        0 < cap → xs.length = cap →
        dequeAppend cap xs x = xs.drop 1 ++ [x]) ∧
    (∀ ps : List (ℚ × ℚ), (ps.foldl tracePointsAppend []).length = ps.length) := by
  refine ⟨fun cap ps => ?_, fun cap xs x hcap hlen => ?_, fun ps => ?_⟩
  · simpa using foldl_dequeAppend_length_le cap ps []
  · have h1 : (xs ++ [x]).length - cap = 1 := by simp [hlen]
    show List.drop ((xs ++ [x]).length - cap) (xs ++ [x]) = List.drop 1 xs ++ [x]
    rw [h1, List.drop_append_of_le_length (by omega)]
  · simpa using foldl_tracePointsAppend_length ps []

/-- C3 witness: a deque of capacity 2 after three appends holds the two
newest points; the first append to a full buffer dropped the front. -/
theorem C3_bounded_buffer_witness :
    ([(((0 : ℚ), (0 : ℚ)), (1 : ℚ)), (((1 : ℚ), (1 : ℚ)), (2 : ℚ))].foldl
        (dequeAppend 2) []).length ≤ 2 ∧
    dequeAppend 2 [(((0 : ℚ), (0 : ℚ)), (1 : ℚ)), (((1 : ℚ), (1 : ℚ)), (2 : ℚ))]
        (((2 : ℚ), (2 : ℚ)), (3 : ℚ)) =
      [(((1 : ℚ), (1 : ℚ)), (2 : ℚ)), (((2 : ℚ), (2 : ℚ)), (3 : ℚ))] := by
  refine ⟨C3_bounded_buffer.1 2 _, ?_⟩
  rw [C3_bounded_buffer.2.1 2 _ _ (by norm_num) (by rfl)]
  rfl

/-- C3 counterexample: feeding 21 accepted points through the circles
detector's `tracePoints.append` leaves a buffer of length 21, strictly
above the configured capacity `POINTS_BUFFER_SIZE = 20` — the buffer is
not bounded by the capacity. -/
theorem C3_bounded_buffer_counterexample :
    ((List.replicate 21 ((0, 0) : ℚ × ℚ)).foldl tracePointsAppend []).length = 21 ∧
    POINTS_BUFFER_SIZE < 21 := by
  constructor
  · simpa using foldl_tracePointsAppend_length (List.replicate 21 ((0, 0) : ℚ × ℚ)) []
  · norm_num [POINTS_BUFFER_SIZE]

/-! ## Claim C4 -/

/-- C4: after `_remove_old_points(current_time)` runs on a buffer ordered
by nondecreasing timestamps (the documented buffer invariant — points are
appended in detection order), every remaining trace point `q` satisfies
`current_time - q.time ≤ max_trace_duration`. -/
theorem C4_staleness (T maxDur : ℚ) (xs : List TracePoint)
    (hsorted : xs.Pairwise (fun a b => a.time ≤ b.time)) :
    ∀ q ∈ remove_old_points T maxDur xs, T - q.time ≤ maxDur := by
  induction xs with
  | nil => intro q hq; simp [remove_old_points] at hq
  | cons p rest ih =>
    rw [List.pairwise_cons] at hsorted
    obtain ⟨hhead, htail⟩ := hsorted
    intro q hq
    unfold remove_old_points at hq
    split_ifs at hq with hold
    · exact ih htail q hq
    · push_neg at hold
      rcases List.mem_cons.mp hq with hqp | hqr
      · subst hqp; exact hold
      · have := hhead q hqr
        linarith

/-- C4 witness: at T = 10 with max duration 2, the buffer
[((0,0),5), ((0,0),9)] keeps ((0,0),9), which is at most 2 old. -/
theorem C4_staleness_witness :
    (10 : ℚ) - TracePoint.time (((0 : ℚ), (0 : ℚ)), (9 : ℚ)) ≤ 2 :=
  C4_staleness 10 2 [(((0 : ℚ), (0 : ℚ)), (5 : ℚ)), (((0 : ℚ), (0 : ℚ)), (9 : ℚ))]
    (by norm_num [List.pairwise_cons, TracePoint.time])
    ((((0 : ℚ), (0 : ℚ)), (9 : ℚ)) : TracePoint)
    (by norm_num [remove_old_points, TracePoint.time])

/-! ## Claim C6 -/

/-- Python `max` keeps the first maximum: folding the dispatcher's
comparison over `xs` starting from `b` yields either `b` itself (when
nothing in `xs` strictly exceeds it) or an element `c` of `xs` such that
everything before `c` (and `b`) is strictly smaller and everything in
`xs` is at most `c`. -/
theorem foldl_max_first_spec (xs : List (String × ℚ)) :
    ∀ b : String × ℚ,
      (xs.foldl (fun best x => if best.2 < x.2 then x else best) b = b ∧
        ∀ y ∈ xs, y.2 ≤ b.2) ∨
      (∃ l1 l2,
        xs = l1 ++ (xs.foldl (fun best x => if best.2 < x.2 then x else best) b) :: l2 ∧
        b.2 < (xs.foldl (fun best x => if best.2 < x.2 then x else best) b).2 ∧
        (∀ y ∈ l1, y.2 < (xs.foldl (fun best x => if best.2 < x.2 then x else best) b).2) ∧
        (∀ y ∈ xs, y.2 ≤ (xs.foldl (fun best x => if best.2 < x.2 then x else best) b).2)) := by
  induction xs with
  | nil => intro b; left; exact ⟨rfl, by simp⟩
  | cons x rest ih =>
    intro b
    simp only [List.foldl_cons]
    by_cases hbx : b.2 < x.2
    · rw [if_pos hbx]
      rcases ih x with ⟨heq, hall⟩ | ⟨l1, l2, hsplit, hlt, hpre, hall⟩
      · right
        refine ⟨[], rest, ?_, ?_, ?_, ?_⟩
        · rw [heq]; simp
        · rw [heq]; exact hbx
        · simp
        · intro y hy
          rcases List.mem_cons.mp hy with rfl | hyr
          · rw [heq]
          · rw [heq]; exact hall y hyr
      · right
        refine ⟨x :: l1, l2, ?_, ?_, ?_, ?_⟩
        · rw [List.cons_append, ← hsplit]
        · exact lt_trans hbx hlt
        · intro y hy
          rcases List.mem_cons.mp hy with rfl | hyl
          · exact hlt
          · exact hpre y hyl
        · intro y hy
          rcases List.mem_cons.mp hy with rfl | hyr
          · exact le_of_lt hlt
          · exact hall y hyr
    · rw [if_neg hbx]
      push_neg at hbx
      rcases ih b with ⟨heq, hall⟩ | ⟨l1, l2, hsplit, hlt, hpre, hall⟩
      · left
        refine ⟨heq, ?_⟩
        intro y hy
        rcases List.mem_cons.mp hy with rfl | hyr
        · exact hbx
        · exact hall y hyr
      · right
        refine ⟨x :: l1, l2, ?_, hlt, ?_, ?_⟩
        · rw [List.cons_append, ← hsplit]
        · intro y hy
          rcases List.mem_cons.mp hy with rfl | hyl
          · exact lt_of_le_of_lt hbx hlt
          · exact hpre y hyl
        · intro y hy
          rcases List.mem_cons.mp hy with rfl | hyr
          · exact le_trans hbx (le_of_lt hlt)
          · exact hall y hyr

/-- C6: the dispatcher keeps only predictions with probability at least
the threshold; if none survive it returns the no-spell sentinel,
otherwise the first label (in the original prediction ordering)
attaining the maximum surviving probability.  Concretely,
{"lumos": 0.6, "nox": 0.3} at threshold 0.49 yields "lumos". -/
theorem C6_dispatcher :
    process_sigil_label [("lumos", 6 / 10), ("nox", 3 / 10)] (49 / 100)
        "background" = "lumos" ∧
    (∀ (preds : List (String × ℚ)) (threshold : ℚ) (sentinel : String),
      (∀ kv ∈ preds, kv.2 < threshold) →
      process_sigil_label preds threshold sentinel = sentinel) ∧
    (∀ (preds : List (String × ℚ)) (threshold : ℚ) (sentinel : String),
      filter_predictions threshold preds ≠ [] →
      ∃ m l1 l2,
        filter_predictions threshold preds = l1 ++ m :: l2 ∧
        process_sigil_label preds threshold sentinel = m.1 ∧
        threshold ≤ m.2 ∧
        (∀ y ∈ l1, y.2 < m.2) ∧
        (∀ y ∈ filter_predictions threshold preds, y.2 ≤ m.2)) := by
  refine ⟨by norm_num [process_sigil_label, filter_predictions, max_first], ?_, ?_⟩
  · intro preds threshold sentinel hbelow
    have hfil : filter_predictions threshold preds = [] := by
      rw [filter_predictions, List.filter_eq_nil_iff]
      intro kv hkv
      simpa using not_le_of_lt (hbelow kv hkv)
    rw [process_sigil_label, hfil]
    rfl
  · intro preds threshold sentinel hne
    obtain ⟨f, fs, hcons⟩ := List.exists_cons_of_ne_nil hne
    have hthresh : ∀ y ∈ filter_predictions threshold preds, threshold ≤ y.2 := by
      intro y hy
      have := List.of_mem_filter hy
      simpa using this
    rcases foldl_max_first_spec fs f with ⟨heq, hall⟩ | ⟨l1, l2, hsplit, _, hpre, hall⟩
    · refine ⟨f, [], fs, by simpa using hcons, ?_, ?_, by simp, ?_⟩
      · rw [process_sigil_label, hcons, max_first, heq]
      · exact hthresh f (hcons ▸ List.mem_cons_self f fs)
      · intro y hy
        rw [hcons] at hy
        rcases List.mem_cons.mp hy with rfl | hyr
        · exact le_refl _
        · exact hall y hyr
    · set c := fs.foldl (fun best x => if best.2 < x.2 then x else best) f with hc
      refine ⟨c, f :: l1, l2, ?_, ?_, ?_, ?_, ?_⟩
      · rw [hcons, hsplit]; rfl
      · rw [process_sigil_label, hcons, max_first, ← hc]
      · refine hthresh c ?_
        rw [hcons, hsplit]
        exact List.mem_cons_of_mem f (List.mem_append_right l1 (List.mem_cons_self c l2))
      · intro y hy
        rcases List.mem_cons.mp hy with rfl | hyl
        · assumption
        · exact hpre y hyl
      · intro y hy
        rw [hcons] at hy
        rcases List.mem_cons.mp hy with rfl | hyr
        · exact le_of_lt (by assumption)
        · exact hall y hyr

/-- C6 witness: every prediction below the threshold — the sentinel
label "background" is returned. -/
theorem C6_dispatcher_witness :
    process_sigil_label [("lumos", 2 / 10), ("nox", 3 / 10)] (49 / 100)
        "background" = "background" :=
  C6_dispatcher.2.1 [("lumos", 2 / 10), ("nox", 3 / 10)] (49 / 100) "background"
    (by norm_num)

/-! ## Claim C7 -/

/-- Characterisation of the column-wise minimum fold used by `get_box`
(the embedding of `numpy.min(axis=0)` on one column). -/
theorem foldl_min_spec (g : α → ℤ) (t : List α) :
    ∀ a : ℤ,
      (t.foldl (fun acc r => min acc (g r)) a ≤ a) ∧
      (∀ r ∈ t, t.foldl (fun acc r => min acc (g r)) a ≤ g r) ∧
      (t.foldl (fun acc r => min acc (g r)) a = a ∨
        ∃ r ∈ t, t.foldl (fun acc r => min acc (g r)) a = g r) := by
  induction t with
  | nil => intro a; exact ⟨le_refl _, by simp, Or.inl rfl⟩
  | cons x rest ih =>
    intro a
    simp only [List.foldl_cons]
    obtain ⟨h1, h2, h3⟩ := ih (min a (g x))
    refine ⟨le_trans h1 (min_le_left _ _), ?_, ?_⟩
    · intro r hr
      rcases List.mem_cons.mp hr with rfl | hrr
      · exact le_trans h1 (min_le_right _ _)
      · exact h2 r hrr
    · rcases h3 with heq | ⟨r, hr, heq⟩
      · rcases le_or_lt a (g x) with hax | hax
        · left; rw [heq, min_eq_left hax]
        · right
          exact ⟨x, List.mem_cons_self x rest, by
            rw [heq, min_eq_right (le_of_lt hax)]⟩
      · right; exact ⟨r, List.mem_cons_of_mem x hr, heq⟩

/-- Characterisation of the column-wise maximum fold used by `get_box`
(the embedding of `numpy.max(axis=0)` on one column). -/
theorem foldl_max_spec (g : α → ℤ) (t : List α) :
    ∀ a : ℤ,
      (a ≤ t.foldl (fun acc r => max acc (g r)) a) ∧
      (∀ r ∈ t, g r ≤ t.foldl (fun acc r => max acc (g r)) a) ∧
      (t.foldl (fun acc r => max acc (g r)) a = a ∨
        ∃ r ∈ t, t.foldl (fun acc r => max acc (g r)) a = g r) := by
  induction t with
  | nil => intro a; exact ⟨le_refl _, by simp, Or.inl rfl⟩
  | cons x rest ih =>
    intro a
    simp only [List.foldl_cons]
    obtain ⟨h1, h2, h3⟩ := ih (max a (g x))
    refine ⟨le_trans (le_max_left _ _) h1, ?_, ?_⟩
    · intro r hr
      rcases List.mem_cons.mp hr with rfl | hrr
      · exact le_trans (le_max_right _ _) h1
      · exact h2 r hrr
    · rcases h3 with heq | ⟨r, hr, heq⟩
      · rcases le_or_lt (g x) a with hax | hax
        · left; rw [heq, max_eq_left hax]
        · right
          exact ⟨x, List.mem_cons_self x rest, by
            rw [heq, max_eq_right (le_of_lt hax)]⟩
      · right; exact ⟨r, List.mem_cons_of_mem x hr, heq⟩

/-- C7 (amended): for every non-empty history whose lines all satisfy
`left ≤ right` and `top ≤ bottom`, `get_box` returns the box built from
the column-wise minimum L of lefts, minimum T of tops, maximum R of
rights and maximum B of bottoms, where the margin is always added to
right and bottom, subtracted from top only when `T - margin ≥ 0`, and
subtracted from left only when the already-updated top minus the margin
is still nonnegative (the code tests `top`, not `left`); in particular
for lines [[10,20,30,40],[15,25,35,45]] with margin 5 the result is
(5,15,40,50). -/
theorem C7_get_box :
    get_box 5 [⟨10, 20, 30, 40⟩, ⟨15, 25, 35, 45⟩] = some (5, 15, 40, 50) ∧
    ∀ (margin : ℤ) (history : List BoxLine) (h : BoxLine) (t : List BoxLine),
      history = h :: t →
      (∀ r ∈ history, r.left ≤ r.right ∧ r.top ≤ r.bottom) →
      ∃ L T R B,
        ((L = h.left ∨ ∃ r ∈ t, L = r.left) ∧ ∀ r ∈ history, L ≤ r.left) ∧
        ((T = h.top ∨ ∃ r ∈ t, T = r.top) ∧ ∀ r ∈ history, T ≤ r.top) ∧
        ((R = h.right ∨ ∃ r ∈ t, R = r.right) ∧ ∀ r ∈ history, r.right ≤ R) ∧
        ((B = h.bottom ∨ ∃ r ∈ t, B = r.bottom) ∧ ∀ r ∈ history, r.bottom ≤ B) ∧
        get_box margin history =
          some (if (if T - margin ≥ 0 then T - margin else T) - margin ≥ 0
                  then L - margin else L,
                (if T - margin ≥ 0 then T - margin else T),
                R + margin, B + margin) := by
  constructor
  · rfl
  · intro margin history h t hhist hwf
    subst hhist
    obtain ⟨hL1, hL2, hL3⟩ := foldl_min_spec BoxLine.left t h.left
    obtain ⟨hT1, hT2, hT3⟩ := foldl_min_spec BoxLine.top t h.top
    obtain ⟨hR1, hR2, hR3⟩ := foldl_max_spec BoxLine.right t h.right
    obtain ⟨hB1, hB2, hB3⟩ := foldl_max_spec BoxLine.bottom t h.bottom
    refine ⟨t.foldl (fun a r => min a r.left) h.left,
      t.foldl (fun a r => min a r.top) h.top,
      t.foldl (fun a r => max a r.right) h.right,
      t.foldl (fun a r => max a r.bottom) h.bottom,
      ⟨hL3, ?_⟩, ⟨hT3, ?_⟩, ⟨hR3, ?_⟩, ⟨hB3, ?_⟩, ?_⟩
    · intro r hr
      rcases List.mem_cons.mp hr with rfl | hrr
      · exact hL1
      · exact hL2 r hrr
    · intro r hr
      rcases List.mem_cons.mp hr with rfl | hrr
      · exact hT1
      · exact hT2 r hrr
    · intro r hr
      rcases List.mem_cons.mp hr with rfl | hrr
      · exact hR1
      · exact hR2 r hrr
    · intro r hr
      rcases List.mem_cons.mp hr with rfl | hrr
      · exact hB1
      · exact hB2 r hrr
    · have hmem : h ∈ h :: t := List.mem_cons_self h t
      have hLR : ¬ t.foldl (fun a r => min a r.left) h.left >
          t.foldl (fun a r => max a r.right) h.right := by
        push_neg
        exact le_trans hL1 (le_trans (hwf h hmem).1 hR1)
      have hTB : ¬ t.foldl (fun a r => min a r.top) h.top >
          t.foldl (fun a r => max a r.bottom) h.bottom := by
        push_neg
        exact le_trans hT1 (le_trans (hwf h hmem).2 hB1)
      simp only [get_box, if_neg hLR, if_neg hTB]

/-- C7 witness: the characterisation instantiated at the claim's example
history [[10,20,30,40],[15,25,35,45]] with margin 5. -/
theorem C7_get_box_witness :
    ∃ L T R B,
      ((L = (⟨10, 20, 30, 40⟩ : BoxLine).left ∨
          ∃ r ∈ [(⟨15, 25, 35, 45⟩ : BoxLine)], L = r.left) ∧
        ∀ r ∈ [(⟨10, 20, 30, 40⟩ : BoxLine), ⟨15, 25, 35, 45⟩], L ≤ r.left) ∧
      ((T = (⟨10, 20, 30, 40⟩ : BoxLine).top ∨
          ∃ r ∈ [(⟨15, 25, 35, 45⟩ : BoxLine)], T = r.top) ∧
        ∀ r ∈ [(⟨10, 20, 30, 40⟩ : BoxLine), ⟨15, 25, 35, 45⟩], T ≤ r.top) ∧
      ((R = (⟨10, 20, 30, 40⟩ : BoxLine).right ∨
          ∃ r ∈ [(⟨15, 25, 35, 45⟩ : BoxLine)], R = r.right) ∧
        ∀ r ∈ [(⟨10, 20, 30, 40⟩ : BoxLine), ⟨15, 25, 35, 45⟩], r.right ≤ R) ∧
      ((B = (⟨10, 20, 30, 40⟩ : BoxLine).bottom ∨
          ∃ r ∈ [(⟨15, 25, 35, 45⟩ : BoxLine)], B = r.bottom) ∧
        ∀ r ∈ [(⟨10, 20, 30, 40⟩ : BoxLine), ⟨15, 25, 35, 45⟩], r.bottom ≤ B) ∧
      get_box 5 [⟨10, 20, 30, 40⟩, ⟨15, 25, 35, 45⟩] =
        some (if (if T - 5 ≥ 0 then T - 5 else T) - 5 ≥ 0 then L - 5 else L,
              (if T - 5 ≥ 0 then T - 5 else T), R + 5, B + 5) :=
  C7_get_box.2 5 [⟨10, 20, 30, 40⟩, ⟨15, 25, 35, 45⟩] ⟨10, 20, 30, 40⟩
    [⟨15, 25, 35, 45⟩] rfl (by decide)

/-- C7 counterexample: for the single line [0,0,30,40] with margin 5 the
claim as stated predicts (min-left − margin, min-top − margin, ...) =
(−5, −5, 35, 45), but `get_box` clamps the subtraction and returns
(0, 0, 35, 45): the returned left is not min-left − margin. -/
theorem C7_get_box_counterexample :
    get_box 5 [⟨0, 0, 30, 40⟩] = some (0, 0, 35, 45) ∧
    (0 : ℤ) ≠ 0 - 5 := by
  exact ⟨rfl, by decide⟩

/-! ## Claim C8 -/

/-- C8: with identical timestamps (`dt = 0`), the circles detector's
`speed = distance / elapsed` is a Python float division by zero and
raises `ZeroDivisionError` (crashing `detect_wand`), while the blobs
detector's numpy division yields a non-finite speed whose comparison
with `max_trace_speed` is `False`, so the candidate is skipped without
error — the two detectors disagree and the circles one raises. -/
theorem C8_dt_zero_division :
    (∀ d : ℚ, circles_speed d 0 = Except.error "ZeroDivisionError") ∧
    (∀ d m : ℚ, blobs_speed_accept d 0 m = false) ∧
    circles_speed 5 0 = Except.error "ZeroDivisionError" ∧
    blobs_speed_accept 5 0 550 = false := by
  exact ⟨fun d => rfl, fun d m => rfl, rfl, rfl⟩

/-! ## Claim C9 -/

/-- One `read()` step from a coherent state `⟨c, c⟩` with `c ≤ total`:
when the incremented frame counter reaches the total the capture is
reopened and the first frame is returned, otherwise the frame at the
current position is returned. -/
theorem looper_read_step (N c : ℕ) (hN : 1 ≤ N) (hc : c ≤ N) :
    looper_read N ⟨c, c⟩ =
      if c + 1 ≥ N then ((true, some 0), (⟨1, 1⟩ : LooperState))
      else ((true, some c), ⟨c + 1, c + 1⟩) := by
  unfold looper_read looper_underread capture_read
  by_cases hge : c + 1 ≥ N
  · have h0 : 0 < N := by omega
    by_cases hc' : c < N
    · simp [hge, h0, hc']
    · simp [hge, h0, hc']
  · have hlt : c < N := by omega
    simp [hge, hlt]

/-- The looper state after `k + 1` reads is `⟨c, c⟩` with
`c = k % max (N-1) 1 + 1`, and the `(k+1)`-th read (0-based `k`)
succeeds with frame `k % max (N-1) 1`. -/
theorem looper_invariant (N : ℕ) (hN : 1 ≤ N) (k : ℕ) :
    looper_state N (k + 1) =
      ⟨k % max (N - 1) 1 + 1, k % max (N - 1) 1 + 1⟩ ∧
    (looper_read N (looper_state N k)).1 = (true, some (k % max (N - 1) 1)) := by
  induction k with
  | zero =>
    have h0 : looper_state N 0 = ⟨0, 0⟩ := rfl
    have hstep := looper_read_step N 0 hN (by omega)
    constructor
    · show (looper_read N (looper_state N 0)).2 = _
      rw [h0, hstep]
      split_ifs <;> simp
    · rw [h0, hstep]
      split_ifs <;> simp
  | succ k ih =>
    obtain ⟨hs, _⟩ := ih
    have hmpos : 0 < max (N - 1) 1 := by omega
    have hcle : k % max (N - 1) 1 + 1 ≤ N := by
      have := Nat.mod_lt k hmpos
      omega
    have hstep := looper_read_step N (k % max (N - 1) 1 + 1) hN hcle
    have hsuccmod : (k + 1) % max (N - 1) 1 =
        (k % max (N - 1) 1 + 1) % max (N - 1) 1 := by
      conv_lhs => rw [Nat.add_mod]
      rcases Nat.lt_or_ge 1 (max (N - 1) 1) with h1 | h1
      · rw [Nat.mod_eq_of_lt h1]
      · have hm1 : max (N - 1) 1 = 1 := by omega
        simp [hm1]
    constructor
    · show (looper_read N (looper_state N (k + 1))).2 = _
      rw [hs, hstep]
      split_ifs with hge
      · have hwrap : k % max (N - 1) 1 + 1 = max (N - 1) 1 := by
          have := Nat.mod_lt k hmpos
          omega
        rw [hsuccmod, hwrap, Nat.mod_self]
      · have hlt : k % max (N - 1) 1 + 1 < max (N - 1) 1 := by omega
        rw [hsuccmod, Nat.mod_eq_of_lt hlt]
    · rw [hs, hstep]
      split_ifs with hge
      · have hwrap : k % max (N - 1) 1 + 1 = max (N - 1) 1 := by
          have := Nat.mod_lt k hmpos
          omega
        rw [hsuccmod, hwrap, Nat.mod_self]
      · have hlt : k % max (N - 1) 1 + 1 < max (N - 1) 1 := by omega
        rw [hsuccmod, Nat.mod_eq_of_lt hlt]

/-- C9: with the constructor-default `flip=[]`, `VideoLooper.read` never
throws.  On an empty capture (0 frames) every call signals failure by
returning `(False, None)`.  On a file with `N ≥ 1` frames every call
succeeds: the `(k+1)`-th call returns `success = true` with frame
`k % max (N-1) 1`, so frames cycle and, on reaching the last frame of
the file, the looper transparently reopens it and returns the first
frame again. -/
theorem C9_video_looper :
    (∀ k, (looper_read 0 (looper_state 0 k)).1 = (false, none)) ∧
    (∀ N, 1 ≤ N → ∀ k,
      (looper_read N (looper_state N k)).1 =
        (true, some (k % max (N - 1) 1))) := by
  constructor
  · intro k
    show (looper_read 0 (looper_state 0 k)).1 = (false, none)
    unfold looper_read looper_underread capture_read
    simp
  · intro N hN k
    exact (looper_invariant N hN k).2

/-- C9 witness: a three-frame file — the first five reads return frames
0, 1, 0, 1, 0: the file loops back transparently, always successfully. -/
theorem C9_video_looper_witness :
    (looper_read 3 (looper_state 3 0)).1 = (true, some 0) ∧
    (looper_read 3 (looper_state 3 1)).1 = (true, some 1) ∧
    (looper_read 3 (looper_state 3 2)).1 = (true, some 0) ∧
    (looper_read 3 (looper_state 3 3)).1 = (true, some 1) ∧
    (looper_read 3 (looper_state 3 4)).1 = (true, some 0) :=
  ⟨C9_video_looper.2 3 (by norm_num) 0, C9_video_looper.2 3 (by norm_num) 1,
    C9_video_looper.2 3 (by norm_num) 2, C9_video_looper.2 3 (by norm_num) 3,
    C9_video_looper.2 3 (by norm_num) 4⟩

/-! ## Claim C10 -/

/-- `int(a * (224 / M))` is at most 224 when `a ≤ M`. -/
theorem floor_ratio_le (a M : ℕ) (hM : 0 < M) (ha : a ≤ M) :
    (((a : ℚ)) * (224 / (M : ℚ))).floor.toNat ≤ 224 := by
  have hM' : (0 : ℚ) < (M : ℚ) := by exact_mod_cast hM
  have hrw : (a : ℚ) * (224 / (M : ℚ)) = ((a : ℚ) * 224) / (M : ℚ) := by ring
  have hle : ((a : ℚ)) * (224 / (M : ℚ)) ≤ 224 := by
    rw [hrw, div_le_iff₀ hM']
    have haM : (a : ℚ) ≤ (M : ℚ) := by exact_mod_cast ha
    nlinarith
  have hbr : (((a : ℚ)) * (224 / (M : ℚ))).floor =
      ⌊((a : ℚ)) * (224 / (M : ℚ))⌋ := rfl
  have h2 : (((a : ℚ)) * (224 / (M : ℚ))).floor ≤ 224 := by
    rw [hbr]
    have h3 := Int.floor_le_floor hle
    have h4 : ⌊(224 : ℚ)⌋ = (224 : ℤ) := by norm_num
    omega
  exact Int.toNat_le.mpr (by exact_mod_cast h2)

/-- `int(a * (224 / M))` truncates to 0 exactly in the degenerate
aspect-ratio regime `a * 224 < M`. -/
theorem floor_ratio_zero (a M : ℕ) (hM : 0 < M) (ha : a * 224 < M) :
    (((a : ℚ)) * (224 / (M : ℚ))).floor.toNat = 0 := by
  have hM' : (0 : ℚ) < (M : ℚ) := by exact_mod_cast hM
  have h0 : (0 : ℚ) ≤ (a : ℚ) * (224 / (M : ℚ)) := by positivity
  have hrw : (a : ℚ) * (224 / (M : ℚ)) = ((a : ℚ) * 224) / (M : ℚ) := by ring
  have h1 : (a : ℚ) * (224 / (M : ℚ)) < 1 := by
    rw [hrw, div_lt_one hM']
    exact_mod_cast ha
  have hbr : ((a : ℚ) * (224 / (M : ℚ))).floor =
      ⌊((a : ℚ)) * (224 / (M : ℚ))⌋ := rfl
  have h2 : ((a : ℚ) * (224 / (M : ℚ))).floor = 0 := by
    rw [hbr]
    exact Int.floor_eq_zero_iff.mpr ⟨h0, h1⟩
  simp [h2]

/-- The `dsize` passed to `cv2.resize` by `pad_to_square` never exceeds
224 in either dimension. -/
theorem pad_new_dims_le (im : Img3) (hr : 0 < im.rows) (hc : 0 < im.cols) :
    (pad_new_dims im).1 ≤ 224 ∧ (pad_new_dims im).2 ≤ 224 := by
  have hM : 0 < max im.rows im.cols := by omega
  constructor
  · exact floor_ratio_le im.cols (max im.rows im.cols) hM (le_max_right _ _)
  · exact floor_ratio_le im.rows (max im.rows im.cols) hM (le_max_left _ _)

/-- C10: for every nonempty grayscale or 3-channel input,
`pad_to_square` returns a 224×224(×3) image and never raises; in the
degenerate aspect-ratio regime where a resize target dimension truncates
to zero (`224 * min(h,w) < max(h,w)`), the caught `cv2.error` fallback
returns the all-black canvas. -/
theorem C10_pad_to_square (input : PadInput)
    (hr : 0 < (pad_input_rgb input).rows)
    (hc : 0 < (pad_input_rgb input).cols) :
    ((pad_to_square input).rows = 224 ∧ (pad_to_square input).cols = 224) ∧
    (224 * min (pad_input_rgb input).rows (pad_input_rgb input).cols <
        max (pad_input_rgb input).rows (pad_input_rgb input).cols →
      Img3.allZero (pad_to_square input)) := by
  have hunfold : pad_to_square input =
      match cvResize3 (pad_input_rgb input)
          (pad_new_dims (pad_input_rgb input)).1
          (pad_new_dims (pad_input_rgb input)).2 with
      | Except.error _ => ⟨224, 224, fun _ _ => (0, 0, 0)⟩
      | Except.ok resized =>
        copyMakeBorder resized
          ((224 - (pad_new_dims (pad_input_rgb input)).2) / 2)
          ((224 - (pad_new_dims (pad_input_rgb input)).2) -
            (224 - (pad_new_dims (pad_input_rgb input)).2) / 2)
          ((224 - (pad_new_dims (pad_input_rgb input)).1) / 2)
          ((224 - (pad_new_dims (pad_input_rgb input)).1) -
            (224 - (pad_new_dims (pad_input_rgb input)).1) / 2)
          (0, 0, 0) := rfl
  obtain ⟨hW, hH⟩ := pad_new_dims_le (pad_input_rgb input) hr hc
  rcases hres : cvResize3 (pad_input_rgb input)
      (pad_new_dims (pad_input_rgb input)).1
      (pad_new_dims (pad_input_rgb input)).2 with e | resized
  · rw [hunfold, hres]
    exact ⟨⟨rfl, rfl⟩, fun _ i j _ _ => rfl⟩
  · rw [hunfold, hres]
    unfold cvResize3 at hres
    by_cases hcond : ((pad_new_dims (pad_input_rgb input)).1 = 0 ∨
        (pad_new_dims (pad_input_rgb input)).2 = 0 ∨
        (pad_input_rgb input).rows = 0 ∨ (pad_input_rgb input).cols = 0)
    · rw [if_pos hcond] at hres
      simp at hres
    · rw [if_neg hcond] at hres
      have hsub := Except.ok.inj hres
      subst hsub
      refine ⟨⟨?_, ?_⟩, ?_⟩
      · show (copyMakeBorder _ _ _ _ _ _).rows = 224
        simp only [copyMakeBorder]
        omega
      · show (copyMakeBorder _ _ _ _ _ _).cols = 224
        simp only [copyMakeBorder]
        omega
      · intro hsmall
        exfalso
        apply hcond
        rcases le_total (pad_input_rgb input).rows (pad_input_rgb input).cols with hle | hle
        · right; left
          rw [min_eq_left hle, max_eq_right hle] at hsmall
          show ((((pad_input_rgb input).rows : ℚ)) *
            (224 / ((max (pad_input_rgb input).rows (pad_input_rgb input).cols : ℕ) : ℚ))).floor.toNat = 0
          rw [max_eq_right hle]
          exact floor_ratio_zero _ _ (by omega) (by omega)
        · left
          rw [min_eq_right hle, max_eq_left hle] at hsmall
          show ((((pad_input_rgb input).cols : ℚ)) *
            (224 / ((max (pad_input_rgb input).rows (pad_input_rgb input).cols : ℕ) : ℚ))).floor.toNat = 0
          rw [max_eq_left hle]
          exact floor_ratio_zero _ _ (by omega) (by omega)

/-- C10 witness: a 1×1000 grayscale input (degenerate aspect ratio, the
resize target height truncates to 0): the fallback all-black 224×224
canvas is returned. -/
theorem C10_pad_to_square_witness :
    ((pad_to_square (Sum.inl ⟨1, 1000, fun _ _ => 7⟩)).rows = 224 ∧
      (pad_to_square (Sum.inl ⟨1, 1000, fun _ _ => 7⟩)).cols = 224) ∧
    (224 * min (pad_input_rgb (Sum.inl ⟨1, 1000, fun _ _ => 7⟩)).rows
        (pad_input_rgb (Sum.inl ⟨1, 1000, fun _ _ => 7⟩)).cols <
      max (pad_input_rgb (Sum.inl ⟨1, 1000, fun _ _ => 7⟩)).rows
        (pad_input_rgb (Sum.inl ⟨1, 1000, fun _ _ => 7⟩)).cols →
      Img3.allZero (pad_to_square (Sum.inl ⟨1, 1000, fun _ _ => 7⟩))) :=
  C10_pad_to_square (Sum.inl ⟨1, 1000, fun _ _ => 7⟩)
    (by simp [pad_input_rgb, gray2rgb])
    (by simp [pad_input_rgb, gray2rgb])

/-! ## Claim C5 -/

theorem except_map_ok {ε α β : Type} (f : α → β) (e : Except ε α) (b : β)
    (h : e.map f = Except.ok b) : ∃ a, e = Except.ok a ∧ b = f a := by
  cases e with
  | error err => simp [Except.map] at h
  | ok a =>
    refine ⟨a, rfl, ?_⟩
    simpa [Except.map] using h.symm

/-- For an in-frame coordinate `0 ≤ x < W` (with `W ≥ 1`), the clamped
margin-expanded slice bounds satisfy: the low bound is strictly below
the high bound, the high bound stays within the frame, and the extent is
at most twice the 10-pixel margin. -/
theorem clamp_axis_bounds (x : ℚ) (W : ℕ) (hW : 1 ≤ W) (h0 : 0 ≤ x) (h1 : x < W) :
    py_int_clamp_low x < py_int_clamp_high W x ∧
    py_int_clamp_high W x ≤ W ∧
    py_int_clamp_high W x - py_int_clamp_low x ≤ 20 := by
  unfold py_int_clamp_low py_int_clamp_high CROPPED_IMG_MARGIN
  have hW' : (1 : ℚ) ≤ ((W : ℕ) : ℚ) := by exact_mod_cast hW
  have hWx : x < ((W : ℕ) : ℚ) := by exact_mod_cast h1
  have hbr1 : (max (x - 10) 0).floor = ⌊max (x - (10 : ℚ)) 0⌋ := rfl
  have hbr2 : (min (x + 10) ((W : ℕ) : ℚ)).floor =
      ⌊min (x + (10 : ℚ)) ((W : ℕ) : ℚ)⌋ := rfl
  rw [hbr1, hbr2]
  have ha0 : (0 : ℚ) ≤ max (x - 10) 0 := le_max_right _ _
  have hab : max (x - 10) 0 + 1 ≤ min (x + 10) ((W : ℕ) : ℚ) := by
    rcases le_total (x - 10) 0 with hc | hc
    · rw [max_eq_right hc]
      refine le_min (by linarith) (by linarith)
    · rw [max_eq_left hc]
      refine le_min (by linarith) (by linarith)
  have hA0 : 0 ≤ ⌊max (x - (10 : ℚ)) 0⌋ := Int.le_floor.mpr (by exact_mod_cast ha0)
  have hAle : (⌊max (x - (10 : ℚ)) 0⌋ : ℚ) ≤ max (x - 10) 0 := Int.floor_le _
  have hAgt : max (x - 10) 0 < ⌊max (x - (10 : ℚ)) 0⌋ + 1 := Int.lt_floor_add_one _
  have hBle : (⌊min (x + (10 : ℚ)) ((W : ℕ) : ℚ)⌋ : ℚ) ≤ min (x + 10) ((W : ℕ) : ℚ) :=
    Int.floor_le _
  have hBgt : min (x + 10) ((W : ℕ) : ℚ) < ⌊min (x + (10 : ℚ)) ((W : ℕ) : ℚ)⌋ + 1 :=
    Int.lt_floor_add_one _
  have hAB : ⌊max (x - (10 : ℚ)) 0⌋ < ⌊min (x + (10 : ℚ)) ((W : ℕ) : ℚ)⌋ := by
    have : (⌊max (x - (10 : ℚ)) 0⌋ : ℚ) < (⌊min (x + (10 : ℚ)) ((W : ℕ) : ℚ)⌋ : ℚ) := by
      linarith
    exact_mod_cast this
  have hBW : ⌊min (x + (10 : ℚ)) ((W : ℕ) : ℚ)⌋ ≤ (W : ℤ) := by
    have hmin : min (x + (10 : ℚ)) ((W : ℕ) : ℚ) ≤ ((W : ℕ) : ℚ) := min_le_right _ _
    have := Int.floor_le_floor hmin
    rwa [Int.floor_natCast] at this
  have hwidth : ⌊min (x + (10 : ℚ)) ((W : ℕ) : ℚ)⌋ - ⌊max (x - (10 : ℚ)) 0⌋ ≤ 20 := by
    have hmle : min (x + 10) ((W : ℕ) : ℚ) ≤ x + 10 := min_le_left _ _
    have hage : x - 10 ≤ max (x - 10) 0 := le_max_left _ _
    have : (⌊min (x + (10 : ℚ)) ((W : ℕ) : ℚ)⌋ : ℚ) - (⌊max (x - (10 : ℚ)) 0⌋ : ℚ) < 21 := by
      linarith
    have h21 : ⌊min (x + (10 : ℚ)) ((W : ℕ) : ℚ)⌋ - ⌊max (x - (10 : ℚ)) 0⌋ < 21 := by
      exact_mod_cast this
    omega
  omega

/-- A floor-truncated product `int(a * s)` with `1 ≤ a`, `1 ≤ s` and
`a * s ≤ 224` lies in `[1, 224]`. -/
theorem floor_scale_bounds (a : ℕ) (s : ℚ) (ha : 1 ≤ a) (hs1 : 1 ≤ s)
    (hsa : (a : ℚ) * s ≤ 224) :
    1 ≤ (((a : ℚ)) * s).floor.toNat ∧ (((a : ℚ)) * s).floor.toNat ≤ 224 := by
  have hbr : (((a : ℚ)) * s).floor = ⌊((a : ℚ)) * s⌋ := rfl
  have ha' : (1 : ℚ) ≤ (a : ℚ) := by exact_mod_cast ha
  have hlo : (1 : ℚ) ≤ (a : ℚ) * s := by nlinarith
  have h1 : (1 : ℤ) ≤ ⌊((a : ℚ)) * s⌋ := Int.le_floor.mpr (by exact_mod_cast hlo)
  have h2 : ⌊((a : ℚ)) * s⌋ ≤ 224 := by
    have h3 := Int.floor_le_floor hsa
    have h4 : ⌊(224 : ℚ)⌋ = (224 : ℤ) := by norm_num
    omega
  rw [hbr]
  omega

/-- The resize target computed by `_crop_save_trace` from a crop of
extent between 1 and 20 pixels on each axis: both dimensions lie in
`[1, 224]`. -/
theorem scaled_dims_bounds (w h : ℕ) (hw1 : 1 ≤ w) (hw2 : w ≤ 20)
    (hh1 : 1 ≤ h) (hh2 : h ≤ 20) :
    1 ≤ (scaled_dims w h).1 ∧ (scaled_dims w h).1 ≤ 224 ∧
    1 ≤ (scaled_dims w h).2 ∧ (scaled_dims w h).2 ≤ 224 := by
  have hw0 : (0 : ℚ) < (w : ℚ) := by exact_mod_cast hw1
  have hh0 : (0 : ℚ) < (h : ℚ) := by exact_mod_cast hh1
  have hw20 : (w : ℚ) ≤ 224 := by
    have : (w : ℚ) ≤ 20 := by exact_mod_cast hw2
    linarith
  have hh20 : (h : ℚ) ≤ 224 := by
    have : (h : ℚ) ≤ 20 := by exact_mod_cast hh2
    linarith
  have hs1 : (1 : ℚ) ≤ min ((224 : ℚ) / w) ((224 : ℚ) / h) := by
    refine le_min ?_ ?_
    · rw [le_div_iff₀ hw0]; linarith
    · rw [le_div_iff₀ hh0]; linarith
  have hsw : (w : ℚ) * min ((224 : ℚ) / w) ((224 : ℚ) / h) ≤ 224 := by
    have hle : min ((224 : ℚ) / w) ((224 : ℚ) / h) ≤ (224 : ℚ) / w := min_le_left _ _
    have := mul_le_mul_of_nonneg_left hle (le_of_lt hw0)
    have heq : (w : ℚ) * ((224 : ℚ) / w) = 224 := by field_simp
    linarith
  have hsh : (h : ℚ) * min ((224 : ℚ) / w) ((224 : ℚ) / h) ≤ 224 := by
    have hle : min ((224 : ℚ) / w) ((224 : ℚ) / h) ≤ (224 : ℚ) / h := min_le_right _ _
    have := mul_le_mul_of_nonneg_left hle (le_of_lt hh0)
    have heq : (h : ℚ) * ((224 : ℚ) / h) = 224 := by field_simp
    linarith
  obtain ⟨hwA, hwB⟩ := floor_scale_bounds w _ hw1 hs1 hsw
  obtain ⟨hhA, hhB⟩ := floor_scale_bounds h _ hh1 hs1 hsh
  exact ⟨hwA, hwB, hhA, hhB⟩

theorem utb_fold_const (p : ℚ × ℚ) : ∀ m : ℕ,
    (List.replicate m p).foldl
      (fun acc q =>
        ((min acc.1.1 q.1, min acc.1.2 q.2), (max acc.2.1 q.1, max acc.2.2 q.2)))
      (p, p) = (p, p) := by
  intro m
  induction m with
  | zero => rfl
  | succ k ih =>
    rw [List.replicate_succ, List.foldl_cons]
    simpa using ih

/-- A stationary trace of `n ≥ 1` copies of an in-frame point `p` has
the degenerate (zero-extent) bounding box `(p, p)`. -/
theorem update_trace_boundaries_replicate (W H : ℕ) (p : ℚ × ℚ) (n : ℕ)
    (hn : 0 < n) (hx0 : 0 ≤ p.1) (hx1 : p.1 ≤ W) (hy0 : 0 ≤ p.2) (hy1 : p.2 ≤ H) :
    update_trace_boundaries W H (List.replicate n p) = (p, p) := by
  obtain ⟨m, rfl⟩ : ∃ m, n = m + 1 := ⟨n - 1, by omega⟩
  unfold update_trace_boundaries
  rw [List.replicate_succ]
  simp only [List.foldl_cons]
  rw [min_eq_right hx1, min_eq_right hy1, max_eq_right hx0, max_eq_right hy0]
  exact utb_fold_const p m

/-- C5: (i) whatever the inputs, whenever `get_a_spell_maybe` produces
an image (either the not-yet-valid black canvas or a successful
`_crop_save_trace`), that image is exactly 224×224; (ii) for the
degenerate zero-extent bounding box of a stationary trace (`n ≥ 1`
copies of one in-frame point) over an all-background tracing frame, the
extraction succeeds — no `ZeroDivisionError`, no `cv2.error` — and
returns an all-background 224×224 canvas. -/
theorem C5_extraction_shape :
    (∀ (valid : Bool) (W H : ℕ) (mask : Img) (u l : ℚ × ℚ) (img : Img),
        get_a_spell_maybe valid W H mask u l = Except.ok img →
        img.rows = 224 ∧ img.cols = 224) ∧
    (∀ (W H n : ℕ) (mask : Img) (p : ℚ × ℚ), 0 < n →
        1 ≤ W → 1 ≤ H → mask.rows = H → mask.cols = W →
        0 ≤ p.1 → p.1 < W → 0 ≤ p.2 → p.2 < H → Img.allZero mask →
        ∃ img,
          crop_save_trace W H mask
            (update_trace_boundaries W H (List.replicate n p)).1
            (update_trace_boundaries W H (List.replicate n p)).2 =
              Except.ok img ∧
          img.rows = 224 ∧ img.cols = 224 ∧ Img.allZero img) := by
  constructor
  · intro valid W H mask u l img h
    unfold get_a_spell_maybe at h
    split_ifs at h with hv
    · unfold crop_save_trace at h
      by_cases hz : ((cropped_region W H mask u l).cols = 0 ∨
          (cropped_region W H mask u l).rows = 0)
      · rw [if_pos hz] at h
        exact Except.noConfusion h
      · rw [if_neg hz] at h
        obtain ⟨r, _, himg⟩ := except_map_ok _ _ _ h
        subst himg
        exact ⟨rfl, rfl⟩
    · have hinj := Except.ok.inj h
      subst hinj
      exact ⟨rfl, rfl⟩
  · intro W H n mask p hn hW hH hmr hmc hx0 hx1 hy0 hy1 hzero
    have hutb := update_trace_boundaries_replicate W H p n hn hx0 (le_of_lt hx1)
      hy0 (le_of_lt hy1)
    rw [hutb]
    obtain ⟨hxa, hxb, hxc⟩ := clamp_axis_bounds p.1 W hW hx0 hx1
    obtain ⟨hya, hyb, hyc⟩ := clamp_axis_bounds p.2 H hH hy0 hy1
    have hcw : (cropped_region W H mask p p).cols =
        py_int_clamp_high W p.1 - py_int_clamp_low p.1 := rfl
    have hch : (cropped_region W H mask p p).rows =
        py_int_clamp_high H p.2 - py_int_clamp_low p.2 := rfl
    have hw1 : 1 ≤ (cropped_region W H mask p p).cols := by rw [hcw]; omega
    have hw2 : (cropped_region W H mask p p).cols ≤ 20 := by rw [hcw]; omega
    have hh1 : 1 ≤ (cropped_region W H mask p p).rows := by rw [hch]; omega
    have hh2 : (cropped_region W H mask p p).rows ≤ 20 := by rw [hch]; omega
    obtain ⟨hs1, hs2, hs3, hs4⟩ := scaled_dims_bounds _ _ hw1 hw2 hh1 hh2
    have hif : ¬ ((cropped_region W H mask p p).cols = 0 ∨
        (cropped_region W H mask p p).rows = 0) := by omega
    have hrc : ¬ ((scaled_dims (cropped_region W H mask p p).cols
          (cropped_region W H mask p p).rows).1 = 0 ∨
        (scaled_dims (cropped_region W H mask p p).cols
          (cropped_region W H mask p p).rows).2 = 0 ∨
        (cropped_region W H mask p p).rows = 0 ∨
        (cropped_region W H mask p p).cols = 0) := by omega
    refine ⟨paste_onto_canvas
        ⟨(scaled_dims (cropped_region W H mask p p).cols
            (cropped_region W H mask p p).rows).2,
          (scaled_dims (cropped_region W H mask p p).cols
            (cropped_region W H mask p p).rows).1,
          fun i j => (cropped_region W H mask p p).px
            (i * (cropped_region W H mask p p).rows /
              (scaled_dims (cropped_region W H mask p p).cols
                (cropped_region W H mask p p).rows).2)
            (j * (cropped_region W H mask p p).cols /
              (scaled_dims (cropped_region W H mask p p).cols
                (cropped_region W H mask p p).rows).1)⟩
        (scaled_dims (cropped_region W H mask p p).cols
          (cropped_region W H mask p p).rows).1
        (scaled_dims (cropped_region W H mask p p).cols
          (cropped_region W H mask p p).rows).2, ?_, rfl, rfl, ?_⟩
    · show crop_save_trace W H mask p p = _
      unfold crop_save_trace
      rw [if_neg hif]
      unfold cvResize
      rw [if_neg hrc]
      rfl
    · intro i j hi hj
      simp only [paste_onto_canvas, canvasPaste]
      split_ifs with hreg
      · obtain ⟨hg1, hg2, hg3, hg4⟩ := hreg
        apply hzero
        · rw [hmr]
          have hnH : 0 < (scaled_dims (cropped_region W H mask p p).cols
              (cropped_region W H mask p p).rows).2 := by omega
          have hdiv : (i - (224 - (scaled_dims (cropped_region W H mask p p).cols
                (cropped_region W H mask p p).rows).2) / 2) *
                (cropped_region W H mask p p).rows /
                (scaled_dims (cropped_region W H mask p p).cols
                  (cropped_region W H mask p p).rows).2 <
              (cropped_region W H mask p p).rows := by
            rw [Nat.div_lt_iff_lt_mul hnH]
            have hA : i - (224 - (scaled_dims (cropped_region W H mask p p).cols
                (cropped_region W H mask p p).rows).2) / 2 <
                (scaled_dims (cropped_region W H mask p p).cols
                  (cropped_region W H mask p p).rows).2 := by omega
            calc (i - (224 - (scaled_dims (cropped_region W H mask p p).cols
                  (cropped_region W H mask p p).rows).2) / 2) *
                  (cropped_region W H mask p p).rows <
                (scaled_dims (cropped_region W H mask p p).cols
                  (cropped_region W H mask p p).rows).2 *
                  (cropped_region W H mask p p).rows := by
                  exact (Nat.mul_lt_mul_right (by omega)).mpr hA
              _ = (cropped_region W H mask p p).rows *
                  (scaled_dims (cropped_region W H mask p p).cols
                    (cropped_region W H mask p p).rows).2 := Nat.mul_comm _ _
          omega
        · rw [hmc]
          have hnW : 0 < (scaled_dims (cropped_region W H mask p p).cols
              (cropped_region W H mask p p).rows).1 := by omega
          have hdiv : (j - (224 - (scaled_dims (cropped_region W H mask p p).cols
                (cropped_region W H mask p p).rows).1) / 2) *
                (cropped_region W H mask p p).cols /
                (scaled_dims (cropped_region W H mask p p).cols
                  (cropped_region W H mask p p).rows).1 <
              (cropped_region W H mask p p).cols := by
            rw [Nat.div_lt_iff_lt_mul hnW]
            have hA : j - (224 - (scaled_dims (cropped_region W H mask p p).cols
                (cropped_region W H mask p p).rows).1) / 2 <
                (scaled_dims (cropped_region W H mask p p).cols
                  (cropped_region W H mask p p).rows).1 := by omega
            calc (j - (224 - (scaled_dims (cropped_region W H mask p p).cols
                  (cropped_region W H mask p p).rows).1) / 2) *
                  (cropped_region W H mask p p).cols <
                (scaled_dims (cropped_region W H mask p p).cols
                  (cropped_region W H mask p p).rows).1 *
                  (cropped_region W H mask p p).cols := by
                  exact (Nat.mul_lt_mul_right (by omega)).mpr hA
              _ = (cropped_region W H mask p p).cols *
                  (scaled_dims (cropped_region W H mask p p).cols
                    (cropped_region W H mask p p).rows).1 := Nat.mul_comm _ _
          omega
      · rfl

/-- C5 witness: a stationary one-point trace at (50,50) in a 100×100
all-background tracing frame — extraction succeeds with an
all-background 224×224 canvas. -/
theorem C5_extraction_shape_witness :
    ∃ img,
      crop_save_trace 100 100 ⟨100, 100, fun _ _ => 0⟩
        (update_trace_boundaries 100 100
          (List.replicate 1 ((50 : ℚ), (50 : ℚ)))).1
        (update_trace_boundaries 100 100
          (List.replicate 1 ((50 : ℚ), (50 : ℚ)))).2 = Except.ok img ∧
      img.rows = 224 ∧ img.cols = 224 ∧ Img.allZero img :=
  C5_extraction_shape.2 100 100 1 ⟨100, 100, fun _ _ => 0⟩ ((50 : ℚ), (50 : ℚ))
    (by norm_num) (by norm_num) (by norm_num) rfl rfl (by norm_num) (by norm_num)
    (by norm_num) (by norm_num) (fun i j _ _ => rfl)
